import Mathlib

/-!
Verification of the coin-canvas dividend/quote aggregation scripts
(`src/dividendos_v2.py`, `src/dividendos_v5.py`).

Modelling conventions for the shallow embedding:

* Python `float` monetary values are modelled as exact rationals (`ℚ`).
  A missing value (`NaN` / `None`, detected in the source with `pd.isna`)
  is modelled with `Option ℚ`, `none` standing for a missing value.
  `Decimal(str(v)).quantize(Decimal('0.0001'), ROUND_HALF_UP)` is exact
  decimal arithmetic, modelled by `roundHalfUp4` below.
* A fetched dividend series (`stock.dividends`) is a list of
  (timestamp, value) pairs; `pandas` timestamps are modelled by `Date`.
* Network effects are an explicit environment: for each ticker, a list of
  per-attempt outcomes (`none` = the fetch raised an exception,
  `some s` = the fetch returned the series `s`).  The list has one entry
  per attempt the retry loop could make, so its length plays the role of
  `max_retries`.
* `time.sleep` calls are recorded in a trace (list of slept durations).
* `datetime.now().year` is an explicit parameter `anoAtual`.
* `pandas.sort_values` is modelled by `List.insertionSort` over the same
  sort keys: the claims under study only depend on the output being a
  sorted permutation of the input, which any pandas sort kind satisfies.
* `pandas` dense ranking (`rank(method='dense', ascending=False)`) assigns
  to a value `v` one plus the number of distinct strictly greater values
  in its group, modelled by `denseRankDesc`.
-/

/-- A calendar date, standing for a pandas timestamp (`data.year`,
`data.month`, `data.day`). -/
structure Date where
  year : ℤ
  month : ℕ
  day : ℕ
deriving DecidableEq, Repr

/-- Zero-padded two-digit rendering used by `strftime` for `%d` and `%m`. -/
def pad2 (n : ℕ) : String :=
  if n < 10 then "0" ++ toString n else toString n

/-- `data.strftime('%d-%m-%Y')`: day-month-year, dash separated. -/
def formatDate (d : Date) : String :=
  pad2 d.day ++ "-" ++ pad2 d.month ++ "-" ++ toString d.year

/-- Kernel-computable decision of the library string order (the order
itself is unchanged: lexicographic comparison of the code-point lists,
as in Python). -/
def decStrLt (a b : String) : Decidable (a < b) :=
  decidable_of_iff (a.toList < b.toList) String.lt_iff_toList_lt.symm

instance (priority := 2000) instDecStrLt (a b : String) :
    Decidable (a < b) :=
  decStrLt a b

/-- Kernel-computable decision of the library string order, non-strict
version. -/
def decStrLe (a b : String) : Decidable (a ≤ b) :=
  decidable_of_iff (a.toList ≤ b.toList) String.le_iff_toList_le.symm

instance (priority := 2000) instDecStrLe (a b : String) :
    Decidable (a ≤ b) :=
  decStrLe a b

/-- One entry of a fetched dividend series: timestamp and value.  The
value is `none` when the provider reported a missing (`NaN`) amount. -/
structure DivEvent where
  data : Date
  valor : Option ℚ
deriving DecidableEq, Repr

/-- A fetched dividend series (`stock.dividends`). -/
abbrev Series := List DivEvent

/-- Round-half-up (ties away from zero, as Python `decimal.ROUND_HALF_UP`)
to 4 decimal places, the exact semantics of
`Decimal(str(v)).quantize(Decimal('0.0001'), rounding=ROUND_HALF_UP)`. -/
def roundHalfUp4 (q : ℚ) : ℚ :=
  if q < 0 then -(((⌊-q * 10000 + 1 / 2⌋ : ℤ) : ℚ) / 10000)
  else ((⌊q * 10000 + 1 / 2⌋ : ℤ) : ℚ) / 10000

/-- `formatar_valor` (identical in `dividendos_v2.py` lines 28-49 and
`dividendos_v5.py` lines 28-49): missing values (`pd.isna(valor) or
valor is None`) become `0.0`; otherwise the value is quantized to 4
decimal places with round-half-up.  The `except` branch of the source is
unreachable for numeric inputs, which is all this model covers. -/
def formatar_valor : Option ℚ → ℚ
  | none => 0
  | some q => roundHalfUp4 q

/-- One row of the detailed dividend table (`dados_dividendos` entries:
`Data`, `Acao`, `Valor`, `Ano`). -/
structure DivRecord where
  Data : String
  Acao : String
  Valor : ℚ
  Ano : ℤ
deriving DecidableEq, Repr

/-- One row of the annual dividend table before ranking
(`dados_anuais` entries: `Ano`, `Acao`, `Valor`). -/
structure AnnualRow where
  Ano : ℤ
  Acao : String
  Valor : ℚ
deriving DecidableEq, Repr

/-- One row of the annual dividend table after the `Ranking` column is
added. -/
structure RankedRow where
  Ano : ℤ
  Acao : String
  Valor : ℚ
  Ranking : ℕ
deriving DecidableEq, Repr

/-- The `dividendos_anuais` Python dict: an insertion-ordered map from
`(ticker, ano)` to the accumulated total. -/
abbrev AnuaisMap := List ((String × ℤ) × ℚ)

/-- `dividendos_anuais[chave] += v` when the key is present,
`dividendos_anuais[chave] = v` otherwise, with dict insertion-order
semantics. -/
def updateAnuais (k : String × ℤ) (v : ℚ) : AnuaisMap → AnuaisMap
  | [] => [(k, v)]
  | (k', v') :: rest =>
    if k' = k then (k', v' + v) :: rest
    else (k', v') :: updateAnuais k v rest

/-- The body of the `for data, valor in dividends.items()` loop
(`dividendos_v5.py` lines 271-298, identical in `dividendos_v2.py` lines
149-176): filter by year range, drop missing or non-positive values,
normalize, append to the detailed list and accumulate into the annual
map; the boolean is `tem_dividendos_no_periodo`. -/
def processEvent (anoInicio anoFim : ℤ) (ticker : String)
    (acc : List DivRecord × AnuaisMap × Bool) (ev : DivEvent) :
    List DivRecord × AnuaisMap × Bool :=
  if anoInicio ≤ ev.data.year ∧ ev.data.year ≤ anoFim then
    match ev.valor with
    | none => acc
    | some v =>
      if v ≤ 0 then acc
      else
        let vf := formatar_valor (some v)
        (acc.1 ++ [{ Data := formatDate ev.data, Acao := ticker,
                     Valor := vf, Ano := ev.data.year }],
         updateAnuais (ticker, ev.data.year) vf acc.2.1,
         true)
  else acc

/-- Processing of one successfully fetched dividend series: the event
loop run over the whole series, starting from the current detailed list
and annual map, with `tem_dividendos_no_periodo` initially `False`. -/
def processaDividendos (anoInicio anoFim : ℤ) (ticker : String)
    (s : Series) (dados : List DivRecord) (anuais : AnuaisMap) :
    List DivRecord × AnuaisMap × Bool :=
  s.foldl (processEvent anoInicio anoFim ticker) (dados, anuais, false)

/-- Mutable state of the collection loop of `coletar_dividendos_periodo`
in `dividendos_v5.py`: the detailed record list, the annual totals map,
the `acoes_com_dividendos` and `acoes_com_erro` counters, the
`acoes_com_dividendos_lista` sidecar list and the trace of `time.sleep`
durations. -/
structure RunState5 where
  dados : List DivRecord
  anuais : AnuaisMap
  comDividendos : ℕ
  comErro : ℕ
  lista : List String
  sleeps : List ℚ
deriving DecidableEq, Repr

/-- Initial collection state of `coletar_dividendos_periodo`. -/
def initV5 : RunState5 :=
  { dados := [], anuais := [], comDividendos := 0, comErro := 0,
    lista := [], sleeps := [] }

/-- The `for attempt in range(max_retries)` retry loop of
`dividendos_v5.py` lines 257-317 for one ticker.  The argument list
holds the outcome of each successive fetch attempt (`none` = the fetch
raised); its length is the number of attempts remaining, so the list
being a singleton tail means `attempt == max_retries - 1`.  On success:
`time.sleep(delay)`, process the series (the `if not dividends.empty`
guard is redundant, since processing an empty series changes nothing),
bump the counters when `tem_dividendos_no_periodo`, and `break`.  On an
exception: on the last attempt record the error, otherwise
`time.sleep(delay * 2)` and retry. -/
def tentativasV5 (anoInicio anoFim : ℤ) (ticker : String) (delay : ℚ) :
    List (Option Series) → RunState5 → RunState5
  | [], st => st
  | some s :: _, st =>
    let st1 := { st with sleeps := st.sleeps ++ [delay] }
    let r := processaDividendos anoInicio anoFim ticker s st1.dados st1.anuais
    let st2 := { st1 with dados := r.1, anuais := r.2.1 }
    if r.2.2 then
      { st2 with comDividendos := st2.comDividendos + 1,
                 lista := st2.lista ++ [ticker] }
    else st2
  | none :: rest, st =>
    if rest = [] then { st with comErro := st.comErro + 1 }
    else tentativasV5 anoInicio anoFim ticker delay rest
           { st with sleeps := st.sleeps ++ [2 * delay] }

/-- The outer `for ticker in acoes_brasil` loop of `dividendos_v5.py`. -/
def loopV5 (env : String → List (Option Series)) (anoInicio anoFim : ℤ)
    (delay : ℚ) (tickers : List String) (st : RunState5) : RunState5 :=
  tickers.foldl (fun st t => tentativasV5 anoInicio anoFim t delay (env t) st) st

/-- Period validation of `coletar_dividendos_periodo`
(`dividendos_v5.py` lines 230-243, identical in `dividendos_v2.py` lines
111-121): first clamp `ano_fim` to the current year, then swap the pair
if `ano_inicio > ano_fim`. -/
def validarPeriodo (anoAtual anoInicio anoFim : ℤ) : ℤ × ℤ :=
  let fim1 := if anoFim > anoAtual then anoAtual else anoFim
  if anoInicio > fim1 then (fim1, anoInicio) else (anoInicio, fim1)

/-- Sort key of `dividendos_df.sort_values(by=['Acao', 'Data'])`:
symbol first, then the formatted `dd-mm-yyyy` date string, both compared
as strings. -/
def detLe (a b : DivRecord) : Prop :=
  a.Acao < b.Acao ∨ (a.Acao = b.Acao ∧ a.Data ≤ b.Data)

instance : DecidableRel detLe := fun a b => by
  unfold detLe; infer_instance

instance : IsTotal DivRecord detLe where
  total a b := by
    unfold detLe
    rcases lt_trichotomy a.Acao b.Acao with h | h | h
    · exact Or.inl (Or.inl h)
    · rcases le_total a.Data b.Data with h2 | h2
      · exact Or.inl (Or.inr ⟨h, h2⟩)
      · exact Or.inr (Or.inr ⟨h.symm, h2⟩)
    · exact Or.inr (Or.inl h)

instance : IsTrans DivRecord detLe where
  trans a b c hab hbc := by
    unfold detLe at *
    rcases hab with h1 | ⟨h1, h1d⟩ <;> rcases hbc with h2 | ⟨h2, h2d⟩
    · exact Or.inl (h1.trans h2)
    · exact Or.inl (lt_of_lt_of_eq h1 h2)
    · exact Or.inl (lt_of_eq_of_lt h1 h2)
    · exact Or.inr ⟨h1.trans h2, h1d.trans h2d⟩

/-- Sort key of `dividendos_anuais_df.sort_values(by=['Ano', 'Acao'])`. -/
def annLe (a b : AnnualRow) : Prop :=
  a.Ano < b.Ano ∨ (a.Ano = b.Ano ∧ a.Acao ≤ b.Acao)

instance : DecidableRel annLe := fun a b => by
  unfold annLe; infer_instance

instance : IsTotal AnnualRow annLe where
  total a b := by
    unfold annLe
    rcases lt_trichotomy a.Ano b.Ano with h | h | h
    · exact Or.inl (Or.inl h)
    · rcases le_total a.Acao b.Acao with h2 | h2
      · exact Or.inl (Or.inr ⟨h, h2⟩)
      · exact Or.inr (Or.inr ⟨h.symm, h2⟩)
    · exact Or.inr (Or.inl h)

instance : IsTrans AnnualRow annLe where
  trans a b c hab hbc := by
    unfold annLe at *
    rcases hab with h1 | ⟨h1, h1d⟩ <;> rcases hbc with h2 | ⟨h2, h2d⟩
    · exact Or.inl (h1.trans h2)
    · exact Or.inl (lt_of_lt_of_eq h1 h2)
    · exact Or.inl (lt_of_eq_of_lt h1 h2)
    · exact Or.inr ⟨h1.trans h2, h1d.trans h2d⟩

/-- Sort key of the final
`dividendos_anuais_df.sort_values(by=['Ano', 'Ranking'])`. -/
def rankLe (a b : RankedRow) : Prop :=
  a.Ano < b.Ano ∨ (a.Ano = b.Ano ∧ a.Ranking ≤ b.Ranking)

instance : DecidableRel rankLe := fun a b => by
  unfold rankLe; infer_instance

instance : IsTotal RankedRow rankLe where
  total a b := by
    unfold rankLe
    rcases lt_trichotomy a.Ano b.Ano with h | h | h
    · exact Or.inl (Or.inl h)
    · rcases le_total a.Ranking b.Ranking with h2 | h2
      · exact Or.inl (Or.inr ⟨h, h2⟩)
      · exact Or.inr (Or.inr ⟨h.symm, h2⟩)
    · exact Or.inr (Or.inl h)

instance : IsTrans RankedRow rankLe where
  trans a b c hab hbc := by
    unfold rankLe at *
    rcases hab with h1 | ⟨h1, h1d⟩ <;> rcases hbc with h2 | ⟨h2, h2d⟩
    · exact Or.inl (h1.trans h2)
    · exact Or.inl (lt_of_lt_of_eq h1 h2)
    · exact Or.inl (lt_of_eq_of_lt h1 h2)
    · exact Or.inr ⟨h1.trans h2, h1d.trans h2d⟩

/-- Modelled semantics of pandas
`groupby('Ano')['Valor'].rank(method='dense', ascending=False)`: the
dense descending rank of `v` among the group values `vals` is one plus
the number of distinct group values strictly greater than `v`. -/
def denseRankDesc (vals : List ℚ) (v : ℚ) : ℕ :=
  (vals.toFinset.filter (fun w => v < w)).card + 1

/-- Adding the `Ranking` column (`dividendos_v5.py` line 357, identical
in `dividendos_v2.py` line 234): each row is ranked densely within its
year group, descending by `Valor`. -/
def addRanking (rows : List AnnualRow) : List RankedRow :=
  rows.map (fun r =>
    { Ano := r.Ano, Acao := r.Acao, Valor := r.Valor,
      Ranking :=
        denseRankDesc ((rows.filter (fun q => q.Ano = r.Ano)).map
          (fun q => q.Valor)) r.Valor })

/-- One annual-table row built from a `dividendos_anuais` map entry
(`dividendos_v5.py` lines 324-331): the total is normalized again. -/
def toAnnualRow (e : (String × ℤ) × ℚ) : AnnualRow :=
  { Ano := e.1.2, Acao := e.1.1, Valor := formatar_valor (some e.2) }

/-- Everything observable about one run of the v5
`coletar_dividendos_periodo`: the two returned tables, the contents of
the `acoes_com_dividendos.txt` sidecar file (`none` when it is not
written), and the final loop state (counters and sleep trace). -/
structure ResultV5 where
  detalhado : List DivRecord
  anual : List RankedRow
  sidecar : Option (List String)
  estado : RunState5
deriving DecidableEq, Repr

/-- `coletar_dividendos_periodo` of `dividendos_v5.py` (lines 198-377):
validate the period, run the collection loop, build the annual rows,
return empty tables when no dividend was found, otherwise sort the
detailed table by `(Acao, Data)`, sort the annual table by
`(Ano, Acao)`, add the dense `Ranking`, re-sort by `(Ano, Ranking)` and
write the sidecar list when `acoes_com_dividendos > 0`.  The NaN
`fillna` repair of lines 352-354 is unreachable in this model because
`Valor` values are exact rationals produced by `formatar_valor`. -/
def coletar_dividendos_periodo_v5 (anoAtual : ℤ)
    (env : String → List (Option Series)) (tickers : List String)
    (anoInicio anoFim : ℤ) (delay : ℚ) : ResultV5 :=
  let p := validarPeriodo anoAtual anoInicio anoFim
  let st := loopV5 env p.1 p.2 delay tickers initV5
  let anualRows := st.anuais.map toAnnualRow
  if st.dados = [] then
    { detalhado := [], anual := [], sidecar := none, estado := st }
  else
    { detalhado := List.insertionSort detLe st.dados,
      anual :=
        if anualRows = [] then []
        else List.insertionSort rankLe
               (addRanking (List.insertionSort annLe anualRows)),
      sidecar :=
        if 0 < st.comDividendos then
          some (List.insertionSort (fun a b : String => a ≤ b) st.lista)
        else none,
      estado := st }

/-- Mutable state of the collection loop of `coletar_dividendos_periodo`
in `dividendos_v2.py`, which has no sidecar list. -/
structure RunState2 where
  dados : List DivRecord
  anuais : AnuaisMap
  comDividendos : ℕ
  comErro : ℕ
  sleeps : List ℚ
deriving DecidableEq, Repr

/-- Initial collection state for the v2 revision. -/
def initV2 : RunState2 :=
  { dados := [], anuais := [], comDividendos := 0, comErro := 0,
    sleeps := [] }

/-- The per-ticker retry loop of `dividendos_v2.py` lines 135-194; the
body is the v5 one minus the `acoes_com_dividendos_lista.append`. -/
def tentativasV2 (anoInicio anoFim : ℤ) (ticker : String) (delay : ℚ) :
    List (Option Series) → RunState2 → RunState2
  | [], st => st
  | some s :: _, st =>
    let st1 := { st with sleeps := st.sleeps ++ [delay] }
    let r := processaDividendos anoInicio anoFim ticker s st1.dados st1.anuais
    let st2 := { st1 with dados := r.1, anuais := r.2.1 }
    if r.2.2 then { st2 with comDividendos := st2.comDividendos + 1 }
    else st2
  | none :: rest, st =>
    if rest = [] then { st with comErro := st.comErro + 1 }
    else tentativasV2 anoInicio anoFim ticker delay rest
           { st with sleeps := st.sleeps ++ [2 * delay] }

/-- The outer ticker loop of `dividendos_v2.py`. -/
def loopV2 (env : String → List (Option Series)) (anoInicio anoFim : ℤ)
    (delay : ℚ) (tickers : List String) (st : RunState2) : RunState2 :=
  tickers.foldl (fun st t => tentativasV2 anoInicio anoFim t delay (env t) st) st

/-- Observable result of one run of the v2 `coletar_dividendos_periodo`:
the two returned tables and the final loop state. -/
structure ResultV2 where
  detalhado : List DivRecord
  anual : List RankedRow
  estado : RunState2
deriving DecidableEq, Repr

/-- `coletar_dividendos_periodo` of `dividendos_v2.py` (lines 80-247):
validation, loop, annual rows, empty-case early return, sorting and
ranking are the same lines of code as in v5; there is no sidecar file. -/
def coletar_dividendos_periodo_v2 (anoAtual : ℤ)
    (env : String → List (Option Series)) (tickers : List String)
    (anoInicio anoFim : ℤ) (delay : ℚ) : ResultV2 :=
  let p := validarPeriodo anoAtual anoInicio anoFim
  let st := loopV2 env p.1 p.2 delay tickers initV2
  let anualRows := st.anuais.map toAnnualRow
  if st.dados = [] then
    { detalhado := [], anual := [], estado := st }
  else
    { detalhado := List.insertionSort detLe st.dados,
      anual :=
        if anualRows = [] then []
        else List.insertionSort rankLe
               (addRanking (List.insertionSort annLe anualRows)),
      estado := st }

/-- Forgetting the v5-only sidecar list: the v2 loop state carried by a
v5 loop state. -/
def projV2 (st : RunState5) : RunState2 :=
  { dados := st.dados, anuais := st.anuais,
    comDividendos := st.comDividendos, comErro := st.comErro,
    sleeps := st.sleeps }

/-- One row of the raw price history returned by `stock.history` for
`coletar_cotacoes_diarias`: date plus `Open` and `Close`, each possibly
missing. -/
structure HistRow where
  date : Date
  Open : Option ℚ
  Close : Option ℚ
deriving DecidableEq, Repr

/-- One row of the quotes table built by `coletar_cotacoes_diarias`. -/
structure QuoteRow where
  Data : String
  Acao : String
  Abertura : ℚ
  Fechamento : ℚ
  Media : ℚ
  Ano : ℤ
deriving DecidableEq, Repr

/-- The raw column expression `(Open + Close) / 2` of
`dividendos_v5.py` line 165, with float NaN propagation. -/
def mediaOpt (o c : Option ℚ) : Option ℚ :=
  match o, c with
  | some a, some b => some ((a + b) / 2)
  | _, _ => none

/-- The success-path transformation of `coletar_cotacoes_diarias`
(`dividendos_v5.py` lines 158-182): per history row, keep date and
symbol, compute the raw midpoint, then normalize the three monetary
columns with `formatar_valor`; `Ano` is the year parsed back from the
formatted date, which is the row's own year. -/
def cotacoesFromHist (ticker : String) (hist : List HistRow) :
    List QuoteRow :=
  hist.map (fun h =>
    { Data := formatDate h.date, Acao := ticker,
      Abertura := formatar_valor h.Open,
      Fechamento := formatar_valor h.Close,
      Media := formatar_valor (mediaOpt h.Open h.Close),
      Ano := h.date.year })

/-- `coletar_cotacoes_diarias` (`dividendos_v5.py` lines 125-196) over
the per-attempt fetch outcomes: an empty history or exhausted retries
yield an empty table; the first successful fetch is transformed by
`cotacoesFromHist`. -/
def coletar_cotacoes_diarias (ticker : String) :
    List (Option (List HistRow)) → List QuoteRow
  | [] => []
  | some hist :: _ =>
    if hist = [] then [] else cotacoesFromHist ticker hist
  | none :: rest =>
    if rest = [] then [] else coletar_cotacoes_diarias ticker rest

/-- The number of iterations the retry loop actually executes for a
given list of per-attempt outcomes: it stops at the first success or
after the final attempt. -/
def numTentativasExecutadas : List (Option Series) → ℕ
  | [] => 0
  | some _ :: _ => 1
  | none :: rest =>
    if rest = [] then 1 else 1 + numTentativasExecutadas rest

/-- Point update of a fetch environment at one ticker. -/
def updateEnv (env : String → List (Option Series)) (t : String)
    (o : List (Option Series)) : String → List (Option Series) :=
  fun u => if u = t then o else env u

/-- Year order within equal symbols, a necessary condition for the
detailed table being chronologically sorted within each symbol. -/
def ChronologicalPorAcao (l : List DivRecord) : Prop :=
  l.Pairwise (fun a b => a.Acao = b.Acao → a.Ano ≤ b.Ano)

instance : DecidablePred ChronologicalPorAcao := fun l => by
  unfold ChronologicalPorAcao; infer_instance

theorem floor_intCast_add_half (n : ℤ) : ⌊(n : ℚ) + 1 / 2⌋ = n := by
  rw [add_comm, Int.floor_add_int]
  norm_num

theorem roundHalfUp4_intCast_div (m : ℤ) :
    roundHalfUp4 ((m : ℚ) / 10000) = (m : ℚ) / 10000 := by
  unfold roundHalfUp4
  split
  · have h1 : -((m : ℚ) / 10000) * 10000 + 1 / 2 = ((-m : ℤ) : ℚ) + 1 / 2 := by
      push_cast; ring
    rw [h1, floor_intCast_add_half]
    push_cast; ring
  · have h1 : (m : ℚ) / 10000 * 10000 + 1 / 2 = ((m : ℤ) : ℚ) + 1 / 2 := by
      ring
    rw [h1, floor_intCast_add_half]

theorem roundHalfUp4_shape (q : ℚ) :
    ∃ m : ℤ, roundHalfUp4 q = (m : ℚ) / 10000 := by
  unfold roundHalfUp4
  split
  · exact ⟨-⌊-q * 10000 + 1 / 2⌋, by push_cast; ring⟩
  · exact ⟨⌊q * 10000 + 1 / 2⌋, rfl⟩

theorem roundHalfUp4_idem (q : ℚ) :
    roundHalfUp4 (roundHalfUp4 q) = roundHalfUp4 q := by
  obtain ⟨m, hm⟩ := roundHalfUp4_shape q
  rw [hm, roundHalfUp4_intCast_div]

theorem roundHalfUp4_zero : roundHalfUp4 0 = 0 := by
  have h := roundHalfUp4_intCast_div 0
  simpa using h

/-- C6: the value normalizer `formatar_valor` is idempotent: re-normalizing
the (never missing) result of a normalization returns it unchanged. -/
theorem formatar_valor_idempotente (x : Option ℚ) :
    formatar_valor (some (formatar_valor x)) = formatar_valor x := by
  cases x with
  | none => simp [formatar_valor, roundHalfUp4_zero]
  | some q => simp [formatar_valor, roundHalfUp4_idem]

/-- C3 fails as stated: with the current year 2025 and the configured
pair (2030, 2035), the clamp runs before the swap, so the effective
range is (2025, 2030) and its end year still exceeds the current year. -/
theorem validarPeriodo_nao_limita_apos_troca :
    validarPeriodo 2025 2030 2035 = (2025, 2030) ∧
      ¬ (validarPeriodo 2025 2030 2035).2 ≤ 2025 := by
  constructor
  · rfl
  · decide

/-- C3 amended: the validated pair always satisfies start ≤ end, and the
end stays at or below the current year whenever the configured start
year does not itself exceed the current year (the clamp runs before the
swap, so a start year beyond the current year can reappear as the
effective end year). -/
theorem validarPeriodo_correto (anoAtual anoInicio anoFim : ℤ) :
    (validarPeriodo anoAtual anoInicio anoFim).1 ≤
        (validarPeriodo anoAtual anoInicio anoFim).2 ∧
      (anoInicio ≤ anoAtual →
        (validarPeriodo anoAtual anoInicio anoFim).2 ≤ anoAtual) := by
  unfold validarPeriodo
  dsimp only
  split <;> split <;> constructor <;> omega

/-- Closed instance of the amended C3 statement. -/
theorem validarPeriodo_correto_witness :
    (validarPeriodo 2025 2024 2030).1 ≤ (validarPeriodo 2025 2024 2030).2 ∧
      (validarPeriodo 2025 2024 2030).2 ≤ 2025 :=
  ⟨(validarPeriodo_correto 2025 2024 2030).1,
   (validarPeriodo_correto 2025 2024 2030).2 (by decide)⟩

theorem processEvent_bad (anoInicio anoFim : ℤ) (t : String)
    (acc : List DivRecord × AnuaisMap × Bool) (ev : DivEvent)
    (hbad : ev.valor = none ∨ ∃ v, ev.valor = some v ∧ v ≤ 0) :
    processEvent anoInicio anoFim t acc ev = acc := by
  unfold processEvent
  rcases hbad with h | ⟨v, hv, hle⟩
  · rw [h]
    split <;> rfl
  · rw [hv]
    split
    · simp [hle]
    · rfl

theorem processaDividendos_bad (anoInicio anoFim : ℤ) (t : String)
    (s₁ s₂ : Series) (ev : DivEvent) (dados : List DivRecord)
    (anuais : AnuaisMap)
    (hbad : ev.valor = none ∨ ∃ v, ev.valor = some v ∧ v ≤ 0) :
    processaDividendos anoInicio anoFim t (s₁ ++ ev :: s₂) dados anuais =
      processaDividendos anoInicio anoFim t (s₁ ++ s₂) dados anuais := by
  unfold processaDividendos
  rw [List.foldl_append, List.foldl_append, List.foldl_cons,
    processEvent_bad _ _ _ _ _ hbad]

theorem tentativasV5_congr_series (anoInicio anoFim : ℤ) (t : String)
    (delay : ℚ) (s s' : Series)
    (hss : ∀ dados anuais,
      processaDividendos anoInicio anoFim t s dados anuais =
        processaDividendos anoInicio anoFim t s' dados anuais) :
    ∀ (o₁ o₂ : List (Option Series)) (st : RunState5),
      tentativasV5 anoInicio anoFim t delay (o₁ ++ some s :: o₂) st =
        tentativasV5 anoInicio anoFim t delay (o₁ ++ some s' :: o₂) st := by
  intro o₁
  induction o₁ with
  | nil =>
    intro o₂ st
    simp only [List.nil_append, tentativasV5]
    rw [hss]
  | cons x o₁ ih =>
    intro o₂ st
    cases x with
    | some u => simp only [List.cons_append, tentativasV5]
    | none =>
      simp only [List.cons_append, tentativasV5]
      rw [if_neg (by simp), if_neg (by simp)]
      exact ih o₂ _

theorem loopV5_congr_series (env : String → List (Option Series))
    (anoInicio anoFim : ℤ) (delay : ℚ) (t : String) (s s' : Series)
    (o₁ o₂ : List (Option Series))
    (hss : ∀ dados anuais,
      processaDividendos anoInicio anoFim t s dados anuais =
        processaDividendos anoInicio anoFim t s' dados anuais) :
    ∀ (tickers : List String) (st : RunState5),
      loopV5 (updateEnv env t (o₁ ++ some s :: o₂)) anoInicio anoFim delay
          tickers st =
        loopV5 (updateEnv env t (o₁ ++ some s' :: o₂)) anoInicio anoFim delay
          tickers st := by
  intro tickers
  induction tickers with
  | nil => intro st; rfl
  | cons u ts ih =>
    intro st
    simp only [loopV5, List.foldl_cons]
    by_cases hu : u = t
    · subst hu
      have hX : updateEnv env u (o₁ ++ some s :: o₂) u = o₁ ++ some s :: o₂ := by
        simp [updateEnv]
      have hX' : updateEnv env u (o₁ ++ some s' :: o₂) u = o₁ ++ some s' :: o₂ := by
        simp [updateEnv]
      rw [hX, hX',
        tentativasV5_congr_series anoInicio anoFim u delay s s' hss o₁ o₂ st]
      exact ih _
    · have hX : updateEnv env t (o₁ ++ some s :: o₂) u = env u := by
        simp [updateEnv, hu]
      have hX' : updateEnv env t (o₁ ++ some s' :: o₂) u = env u := by
        simp [updateEnv, hu]
      rw [hX, hX']
      exact ih _

/-- C2: a fetched dividend event whose amount is missing (`NaN`) or
non-positive is excluded entirely by `coletar_dividendos_periodo`:
deleting that event from the fetched series leaves every observable
output of the run (detailed table, annual table, sidecar list, counters,
sleep trace) unchanged, so the event contributes to neither the detailed
records nor the per-(symbol, year) totals. -/
theorem eventos_invalidos_excluidos (anoAtual : ℤ)
    (env : String → List (Option Series)) (tickers : List String)
    (anoInicio anoFim : ℤ) (delay : ℚ) (t : String)
    (o₁ o₂ : List (Option Series)) (s₁ s₂ : Series) (ev : DivEvent)
    (hbad : ev.valor = none ∨ ∃ v, ev.valor = some v ∧ v ≤ 0) :
    coletar_dividendos_periodo_v5 anoAtual
        (updateEnv env t (o₁ ++ some (s₁ ++ ev :: s₂) :: o₂)) tickers
        anoInicio anoFim delay =
      coletar_dividendos_periodo_v5 anoAtual
        (updateEnv env t (o₁ ++ some (s₁ ++ s₂) :: o₂)) tickers
        anoInicio anoFim delay := by
  have h := loopV5_congr_series env
    (validarPeriodo anoAtual anoInicio anoFim).1
    (validarPeriodo anoAtual anoInicio anoFim).2 delay t _ _ o₁ o₂
    (fun dados anuais => processaDividendos_bad _ _ t s₁ s₂ ev dados anuais hbad)
    tickers initV5
  simp only [coletar_dividendos_periodo_v5]
  rw [h]

/-- Closed instance of C2: the spec example, amount -3.5 for PETR4 on
2020-01-01, changes nothing when removed from the fetched series. -/
theorem eventos_invalidos_excluidos_witness :
    coletar_dividendos_periodo_v5 2024
        (updateEnv (fun _ => []) "PETR4"
          [some [{ data := ⟨2020, 1, 1⟩, valor := some (-(7 / 2)) }]])
        ["PETR4"] 2015 2024 (1 / 2) =
      coletar_dividendos_periodo_v5 2024
        (updateEnv (fun _ => []) "PETR4" [some []])
        ["PETR4"] 2015 2024 (1 / 2) := by
  have h := eventos_invalidos_excluidos 2024 (fun _ => []) ["PETR4"]
    2015 2024 (1 / 2) "PETR4" [] [] [] []
    { data := ⟨2020, 1, 1⟩, valor := some (-(7 / 2)) }
    (Or.inr ⟨-(7 / 2), rfl, by norm_num⟩)
  simpa using h

theorem tentativasV5_allNone (anoInicio anoFim : ℤ) (t : String) (delay : ℚ) :
    ∀ (o : List (Option Series)) (st : RunState5), o ≠ [] →
      (∀ x ∈ o, x = none) →
      tentativasV5 anoInicio anoFim t delay o st =
        { st with comErro := st.comErro + 1,
                  sleeps := st.sleeps ++
                    List.replicate (o.length - 1) (2 * delay) } := by
  intro o
  induction o with
  | nil => intro st h; exact absurd rfl h
  | cons x rest ih =>
    intro st _ hall
    have hx : x = none := hall x (List.mem_cons_self x rest)
    subst hx
    simp only [tentativasV5]
    by_cases hr : rest = []
    · subst hr; simp
    · rw [if_neg hr,
        ih _ hr (fun y hy => hall y (List.mem_cons_of_mem _ hy))]
      have hlen : rest.length - 1 + 1 = rest.length :=
        Nat.succ_pred_eq_of_pos (List.length_pos.mpr hr)
      have hs : (st.sleeps ++ [2 * delay]) ++
            List.replicate (rest.length - 1) (2 * delay) =
          st.sleeps ++
            List.replicate ((none :: rest : List (Option Series)).length - 1)
              (2 * delay) := by
        rw [List.append_assoc]
        congr 1
        rw [List.singleton_append, List.length_cons, Nat.add_sub_cancel]
        conv_rhs => rw [← hlen]
        rw [List.replicate_succ]
      simp only [hs]

theorem tentativasV5_sleeps_success (anoInicio anoFim : ℤ) (t : String)
    (delay : ℚ) (s : Series) :
    ∀ (o₁ o₂ : List (Option Series)) (st : RunState5),
      (∀ x ∈ o₁, x = none) →
      (tentativasV5 anoInicio anoFim t delay (o₁ ++ some s :: o₂) st).sleeps =
        st.sleeps ++ (List.replicate o₁.length (2 * delay) ++ [delay]) := by
  intro o₁
  induction o₁ with
  | nil =>
    intro o₂ st _
    simp only [List.nil_append, tentativasV5]
    split <;> simp
  | cons x o₁ ih =>
    intro o₂ st hall
    have hx : x = none := hall x (List.mem_cons_self x o₁)
    subst hx
    simp only [List.cons_append, tentativasV5]
    rw [if_neg (by simp)]
    simp only [List.append_eq]
    rw [ih o₂ _ (fun y hy => hall y (List.mem_cons_of_mem _ hy))]
    simp [List.replicate_succ]

/-- C4 fails as stated: in a run where the first fetch attempt raises
and the second succeeds, two attempts execute but the fixed `delay`
sleep (here 1/2) happens only once; the failing attempt sleeps
`2 * delay` (here 1) instead. -/
theorem sleep_fixo_nem_toda_tentativa :
    numTentativasExecutadas [none, some []] = 2 ∧
      (tentativasV5 2015 2024 "PETR4" (1 / 2) [none, some []] initV5).sleeps =
        [1, 1 / 2] ∧
      ((tentativasV5 2015 2024 "PETR4" (1 / 2) [none, some []]
          initV5).sleeps.count (1 / 2) <
        numTentativasExecutadas [none, some []]) := by
  refine ⟨rfl, ?_, ?_⟩
  · norm_num [tentativasV5, processaDividendos, initV5]
  · norm_num [tentativasV5, processaDividendos, initV5, numTentativasExecutadas,
      List.count_cons]

/-- C4 amended: on each retry-loop pass the fixed `delay` sleep happens
after the fetch only on the attempt whose fetch succeeds; a failed
attempt that is not the last sleeps `2 * delay` instead, and the final
failed attempt does not sleep at all.  Concretely, if the first success
comes after `k` failures the trace gains `k` sleeps of `2 * delay`
followed by one of `delay`, and if all `n ≥ 1` attempts fail it gains
`n - 1` sleeps of `2 * delay`. -/
theorem sleep_fixo_somente_em_sucesso (anoInicio anoFim : ℤ) (t : String)
    (delay : ℚ) (st : RunState5) :
    (∀ (o₁ : List (Option Series)) (s : Series)
        (o₂ : List (Option Series)), (∀ x ∈ o₁, x = none) →
        (tentativasV5 anoInicio anoFim t delay (o₁ ++ some s :: o₂)
            st).sleeps =
          st.sleeps ++ (List.replicate o₁.length (2 * delay) ++ [delay])) ∧
      (∀ o : List (Option Series), o ≠ [] → (∀ x ∈ o, x = none) →
        (tentativasV5 anoInicio anoFim t delay o st).sleeps =
          st.sleeps ++ List.replicate (o.length - 1) (2 * delay)) := by
  constructor
  · intro o₁ s o₂ h
    exact tentativasV5_sleeps_success anoInicio anoFim t delay s o₁ o₂ st h
  · intro o ho hall
    rw [tentativasV5_allNone anoInicio anoFim t delay o st ho hall]

/-- Closed instance of the amended C4 statement: one failure then one
success yields the trace extension `[2 * delay, delay]`; three failures
yield `[2 * delay, 2 * delay]`. -/
theorem sleep_fixo_somente_em_sucesso_witness :
    (tentativasV5 2015 2024 "VALE3" (1 / 2) [none, some [], none]
        initV5).sleeps =
      initV5.sleeps ++ (List.replicate 1 (2 * (1 / 2)) ++ [1 / 2]) ∧
      (tentativasV5 2015 2024 "VALE3" (1 / 2) [none, none, none]
          initV5).sleeps =
        initV5.sleeps ++ List.replicate 2 (2 * (1 / 2)) := by
  constructor
  · exact (sleep_fixo_somente_em_sucesso 2015 2024 "VALE3" (1 / 2)
      initV5).1 [none] [] [none] (by decide)
  · exact (sleep_fixo_somente_em_sucesso 2015 2024 "VALE3" (1 / 2)
      initV5).2 [none, none, none] (by decide) (by decide)

theorem processEvent_dados_mem (anoInicio anoFim : ℤ) (t : String)
    (acc : List DivRecord × AnuaisMap × Bool) (ev : DivEvent)
    (r : DivRecord)
    (hr : r ∈ (processEvent anoInicio anoFim t acc ev).1) :
    r ∈ acc.1 ∨ r.Acao = t := by
  unfold processEvent at hr
  split at hr
  · cases hev : ev.valor with
    | none => rw [hev] at hr; exact Or.inl hr
    | some v =>
      rw [hev] at hr
      dsimp only at hr
      by_cases hv : v ≤ 0
      · rw [if_pos hv] at hr
        exact Or.inl hr
      · rw [if_neg hv] at hr
        dsimp only at hr
        rcases List.mem_append.mp hr with h | h
        · exact Or.inl h
        · right
          rw [List.mem_singleton.mp h]
  · exact Or.inl hr

theorem foldl_processEvent_dados_mem (anoInicio anoFim : ℤ) (t : String) :
    ∀ (s : Series) (acc : List DivRecord × AnuaisMap × Bool)
      (r : DivRecord),
      r ∈ (s.foldl (processEvent anoInicio anoFim t) acc).1 →
      r ∈ acc.1 ∨ r.Acao = t := by
  intro s
  induction s with
  | nil => intro acc r hr; exact Or.inl hr
  | cons ev s ih =>
    intro acc r hr
    rw [List.foldl_cons] at hr
    rcases ih _ r hr with h | h
    · exact processEvent_dados_mem _ _ _ _ _ _ h
    · exact Or.inr h

theorem updateAnuais_keys_mem (k : String × ℤ) (v : ℚ) :
    ∀ (m : AnuaisMap) (k' : String × ℤ),
      k' ∈ (updateAnuais k v m).map Prod.fst →
      k' ∈ m.map Prod.fst ∨ k' = k := by
  intro m
  induction m with
  | nil =>
    intro k' h
    simp only [updateAnuais, List.map_cons, List.map_nil,
      List.mem_singleton] at h
    exact Or.inr h
  | cons e rest ih =>
    intro k' h
    obtain ⟨ek, ev⟩ := e
    simp only [updateAnuais] at h
    split at h
    · simp only [List.map_cons, List.mem_cons] at h
      rcases h with h | h
      · exact Or.inl (by simp [h])
      · exact Or.inl (by simp [h])
    · simp only [List.map_cons, List.mem_cons] at h
      rcases h with h | h
      · exact Or.inl (by simp [h])
      · rcases ih k' h with h2 | h2
        · exact Or.inl (by simp [h2])
        · exact Or.inr h2

theorem processEvent_anuais_mem (anoInicio anoFim : ℤ) (t : String)
    (acc : List DivRecord × AnuaisMap × Bool) (ev : DivEvent)
    (k' : String × ℤ)
    (hk : k' ∈ (processEvent anoInicio anoFim t acc ev).2.1.map Prod.fst) :
    k' ∈ acc.2.1.map Prod.fst ∨ k'.1 = t := by
  unfold processEvent at hk
  split at hk
  · cases hev : ev.valor with
    | none => rw [hev] at hk; exact Or.inl hk
    | some v =>
      rw [hev] at hk
      dsimp only at hk
      by_cases hv : v ≤ 0
      · rw [if_pos hv] at hk
        exact Or.inl hk
      · rw [if_neg hv] at hk
        dsimp only at hk
        rcases updateAnuais_keys_mem _ _ _ _ hk with h | h
        · exact Or.inl h
        · right; rw [h]
  · exact Or.inl hk

theorem foldl_processEvent_anuais_mem (anoInicio anoFim : ℤ) (t : String) :
    ∀ (s : Series) (acc : List DivRecord × AnuaisMap × Bool)
      (k' : String × ℤ),
      k' ∈ (s.foldl (processEvent anoInicio anoFim t) acc).2.1.map Prod.fst →
      k' ∈ acc.2.1.map Prod.fst ∨ k'.1 = t := by
  intro s
  induction s with
  | nil => intro acc k' hk; exact Or.inl hk
  | cons ev s ih =>
    intro acc k' hk
    rw [List.foldl_cons] at hk
    rcases ih _ k' hk with h | h
    · exact processEvent_anuais_mem _ _ _ _ _ _ h
    · exact Or.inr h

theorem tentativasV5_dados_mem (anoInicio anoFim : ℤ) (t : String)
    (delay : ℚ) :
    ∀ (o : List (Option Series)) (st : RunState5) (r : DivRecord),
      r ∈ (tentativasV5 anoInicio anoFim t delay o st).dados →
      r ∈ st.dados ∨ r.Acao = t := by
  intro o
  induction o with
  | nil => intro st r hr; exact Or.inl hr
  | cons a rest ih =>
    intro st r hr
    cases a with
    | some s =>
      simp only [tentativasV5] at hr
      split at hr
      · exact foldl_processEvent_dados_mem _ _ _ _ _ _ hr
      · exact foldl_processEvent_dados_mem _ _ _ _ _ _ hr
    | none =>
      simp only [tentativasV5] at hr
      split at hr
      · exact Or.inl hr
      · exact ih { st with sleeps := st.sleeps ++ [2 * delay] } r hr

theorem tentativasV5_anuais_mem (anoInicio anoFim : ℤ) (t : String)
    (delay : ℚ) :
    ∀ (o : List (Option Series)) (st : RunState5) (k' : String × ℤ),
      k' ∈ (tentativasV5 anoInicio anoFim t delay o st).anuais.map Prod.fst →
      k' ∈ st.anuais.map Prod.fst ∨ k'.1 = t := by
  intro o
  induction o with
  | nil => intro st k' hk; exact Or.inl hk
  | cons a rest ih =>
    intro st k' hk
    cases a with
    | some s =>
      simp only [tentativasV5] at hk
      split at hk
      · exact foldl_processEvent_anuais_mem _ _ _ _ _ _ hk
      · exact foldl_processEvent_anuais_mem _ _ _ _ _ _ hk
    | none =>
      simp only [tentativasV5] at hk
      split at hk
      · exact Or.inl hk
      · exact ih { st with sleeps := st.sleeps ++ [2 * delay] } k' hk

theorem tentativasV5_lista_mem (anoInicio anoFim : ℤ) (t : String)
    (delay : ℚ) :
    ∀ (o : List (Option Series)) (st : RunState5) (x : String),
      x ∈ (tentativasV5 anoInicio anoFim t delay o st).lista →
      x ∈ st.lista ∨ x = t := by
  intro o
  induction o with
  | nil => intro st x hx; exact Or.inl hx
  | cons a rest ih =>
    intro st x hx
    cases a with
    | some s =>
      simp only [tentativasV5] at hx
      split at hx
      · rcases List.mem_append.mp hx with h | h
        · exact Or.inl h
        · exact Or.inr (List.mem_singleton.mp h)
      · exact Or.inl hx
    | none =>
      simp only [tentativasV5] at hx
      split at hx
      · exact Or.inl hx
      · exact ih { st with sleeps := st.sleeps ++ [2 * delay] } x hx

theorem tentativasV5_comErro_mono (anoInicio anoFim : ℤ) (t : String)
    (delay : ℚ) :
    ∀ (o : List (Option Series)) (st : RunState5),
      st.comErro ≤ (tentativasV5 anoInicio anoFim t delay o st).comErro := by
  intro o
  induction o with
  | nil => intro st; exact le_rfl
  | cons a rest ih =>
    intro st
    cases a with
    | some s =>
      simp only [tentativasV5]
      split <;> exact le_rfl
    | none =>
      simp only [tentativasV5]
      split
      · exact Nat.le_succ _
      · exact ih { st with sleeps := st.sleeps ++ [2 * delay] }

theorem loopV5_comErro_mono (env : String → List (Option Series))
    (anoInicio anoFim : ℤ) (delay : ℚ) :
    ∀ (tickers : List String) (st : RunState5),
      st.comErro ≤ (loopV5 env anoInicio anoFim delay tickers st).comErro := by
  intro tickers
  induction tickers with
  | nil => intro st; exact le_rfl
  | cons u ts ih =>
    intro st
    simp only [loopV5, List.foldl_cons]
    exact le_trans (tentativasV5_comErro_mono anoInicio anoFim u delay
      (env u) st) (ih _)

theorem tentativasV5_allNone_fields (anoInicio anoFim : ℤ) (t : String)
    (delay : ℚ) (o : List (Option Series)) (st : RunState5)
    (hall : ∀ x ∈ o, x = none) :
    (tentativasV5 anoInicio anoFim t delay o st).dados = st.dados ∧
      (tentativasV5 anoInicio anoFim t delay o st).anuais = st.anuais ∧
      (tentativasV5 anoInicio anoFim t delay o st).comDividendos =
        st.comDividendos ∧
      (tentativasV5 anoInicio anoFim t delay o st).lista = st.lista := by
  cases o with
  | nil => exact ⟨rfl, rfl, rfl, rfl⟩
  | cons a rest =>
    rw [tentativasV5_allNone anoInicio anoFim t delay (a :: rest) st
      (by simp) hall]
    exact ⟨rfl, rfl, rfl, rfl⟩

theorem tentativasV5_core (anoInicio anoFim : ℤ) (t : String) (delay : ℚ) :
    ∀ (o : List (Option Series)) (st₁ st₂ : RunState5),
      st₁.dados = st₂.dados → st₁.anuais = st₂.anuais →
      st₁.comDividendos = st₂.comDividendos → st₁.lista = st₂.lista →
      (tentativasV5 anoInicio anoFim t delay o st₁).dados =
          (tentativasV5 anoInicio anoFim t delay o st₂).dados ∧
        (tentativasV5 anoInicio anoFim t delay o st₁).anuais =
          (tentativasV5 anoInicio anoFim t delay o st₂).anuais ∧
        (tentativasV5 anoInicio anoFim t delay o st₁).comDividendos =
          (tentativasV5 anoInicio anoFim t delay o st₂).comDividendos ∧
        (tentativasV5 anoInicio anoFim t delay o st₁).lista =
          (tentativasV5 anoInicio anoFim t delay o st₂).lista := by
  intro o
  induction o with
  | nil => intro st₁ st₂ h1 h2 h3 h4; exact ⟨h1, h2, h3, h4⟩
  | cons a rest ih =>
    intro st₁ st₂ h1 h2 h3 h4
    cases a with
    | some s =>
      simp only [tentativasV5]
      rw [h1, h2]
      split <;> exact ⟨rfl, rfl, by simp [h3], by simp [h4]⟩
    | none =>
      simp only [tentativasV5]
      by_cases hr : rest = []
      · subst hr
        simp only [if_pos rfl]
        exact ⟨h1, h2, h3, h4⟩
      · rw [if_neg hr, if_neg hr]
        exact ih { st₁ with sleeps := st₁.sleeps ++ [2 * delay] }
          { st₂ with sleeps := st₂.sleeps ++ [2 * delay] } h1 h2 h3 h4

theorem loopV5_core (env : String → List (Option Series))
    (anoInicio anoFim : ℤ) (delay : ℚ) :
    ∀ (tickers : List String) (st₁ st₂ : RunState5),
      st₁.dados = st₂.dados → st₁.anuais = st₂.anuais →
      st₁.comDividendos = st₂.comDividendos → st₁.lista = st₂.lista →
      (loopV5 env anoInicio anoFim delay tickers st₁).dados =
          (loopV5 env anoInicio anoFim delay tickers st₂).dados ∧
        (loopV5 env anoInicio anoFim delay tickers st₁).anuais =
          (loopV5 env anoInicio anoFim delay tickers st₂).anuais ∧
        (loopV5 env anoInicio anoFim delay tickers st₁).comDividendos =
          (loopV5 env anoInicio anoFim delay tickers st₂).comDividendos ∧
        (loopV5 env anoInicio anoFim delay tickers st₁).lista =
          (loopV5 env anoInicio anoFim delay tickers st₂).lista := by
  intro tickers
  induction tickers with
  | nil => intro st₁ st₂ h1 h2 h3 h4; exact ⟨h1, h2, h3, h4⟩
  | cons u ts ih =>
    intro st₁ st₂ h1 h2 h3 h4
    simp only [loopV5, List.foldl_cons]
    obtain ⟨g1, g2, g3, g4⟩ :=
      tentativasV5_core anoInicio anoFim u delay (env u) st₁ st₂ h1 h2 h3 h4
    exact ih _ _ g1 g2 g3 g4

theorem loopV5_inv_sem_ticker (env : String → List (Option Series))
    (anoInicio anoFim : ℤ) (delay : ℚ) (t : String)
    (ht : ∀ x ∈ env t, x = none) :
    ∀ (tickers : List String) (st : RunState5),
      ((∀ r ∈ st.dados, r.Acao ≠ t) ∧
        (∀ k ∈ st.anuais.map Prod.fst, k.1 ≠ t) ∧
        (∀ x ∈ st.lista, x ≠ t)) →
      ((∀ r ∈ (loopV5 env anoInicio anoFim delay tickers st).dados,
          r.Acao ≠ t) ∧
        (∀ k ∈ (loopV5 env anoInicio anoFim delay tickers st).anuais.map
            Prod.fst, k.1 ≠ t) ∧
        (∀ x ∈ (loopV5 env anoInicio anoFim delay tickers st).lista,
          x ≠ t)) := by
  intro tickers
  induction tickers with
  | nil => intro st h; exact h
  | cons u ts ih =>
    intro st h
    obtain ⟨hd, ha, hl⟩ := h
    simp only [loopV5, List.foldl_cons]
    refine ih _ ⟨?_, ?_, ?_⟩
    · intro r hr
      by_cases hu : u = t
      · subst hu
        rw [(tentativasV5_allNone_fields anoInicio anoFim u delay
          (env u) st ht).1] at hr
        exact hd r hr
      · rcases tentativasV5_dados_mem anoInicio anoFim u delay
          (env u) st r hr with h | h
        · exact hd r h
        · rw [h]; exact hu
    · intro k hk
      by_cases hu : u = t
      · subst hu
        rw [(tentativasV5_allNone_fields anoInicio anoFim u delay
          (env u) st ht).2.1] at hk
        exact ha k hk
      · rcases tentativasV5_anuais_mem anoInicio anoFim u delay
          (env u) st k hk with h | h
        · exact ha k h
        · rw [h]; exact hu
    · intro x hx
      by_cases hu : u = t
      · subst hu
        rw [(tentativasV5_allNone_fields anoInicio anoFim u delay
          (env u) st ht).2.2.2] at hx
        exact hl x hx
      · rcases tentativasV5_lista_mem anoInicio anoFim u delay
          (env u) st x hx with h | h
        · exact hl x h
        · rw [h]; exact hu

/-- C5: a symbol whose fetch raises on every one of its attempts is
recorded as errored (the `acoes_com_erro` counter is positive),
contributes zero records — it is absent from the detailed table, from
the annual table and from the sidecar list — sleeps `delay * 2` between
failed attempts (and nothing after the last one), and does not stop the
run: dropping the symbol from the ticker list leaves the two tables and
the sidecar unchanged. -/
theorem simbolo_com_falha_total (anoAtual : ℤ)
    (env : String → List (Option Series)) (tickers : List String)
    (anoInicio anoFim : ℤ) (delay : ℚ) (t : String)
    (h1 : env t ≠ []) (h2 : ∀ x ∈ env t, x = none) (h3 : t ∈ tickers) :
    (∀ r ∈ (coletar_dividendos_periodo_v5 anoAtual env tickers anoInicio
        anoFim delay).detalhado, r.Acao ≠ t) ∧
      (∀ r ∈ (coletar_dividendos_periodo_v5 anoAtual env tickers anoInicio
          anoFim delay).anual, r.Acao ≠ t) ∧
      (∀ l, (coletar_dividendos_periodo_v5 anoAtual env tickers anoInicio
          anoFim delay).sidecar = some l → t ∉ l) ∧
      1 ≤ (coletar_dividendos_periodo_v5 anoAtual env tickers anoInicio
          anoFim delay).estado.comErro ∧
      (∀ (i f : ℤ) (st : RunState5),
        tentativasV5 i f t delay (env t) st =
          { st with comErro := st.comErro + 1,
                    sleeps := st.sleeps ++
                      List.replicate ((env t).length - 1) (2 * delay) }) ∧
      (∀ l₁ l₂, tickers = l₁ ++ t :: l₂ →
        (coletar_dividendos_periodo_v5 anoAtual env tickers anoInicio
            anoFim delay).detalhado =
          (coletar_dividendos_periodo_v5 anoAtual env (l₁ ++ l₂) anoInicio
            anoFim delay).detalhado ∧
        (coletar_dividendos_periodo_v5 anoAtual env tickers anoInicio
            anoFim delay).anual =
          (coletar_dividendos_periodo_v5 anoAtual env (l₁ ++ l₂) anoInicio
            anoFim delay).anual ∧
        (coletar_dividendos_periodo_v5 anoAtual env tickers anoInicio
            anoFim delay).sidecar =
          (coletar_dividendos_periodo_v5 anoAtual env (l₁ ++ l₂) anoInicio
            anoFim delay).sidecar) := by
  have hinv := loopV5_inv_sem_ticker env
    (validarPeriodo anoAtual anoInicio anoFim).1
    (validarPeriodo anoAtual anoInicio anoFim).2 delay t h2 tickers initV5
    ⟨by simp [initV5], by simp [initV5], by simp [initV5]⟩
  refine ⟨?_, ?_, ?_, ?_, ?_, ?_⟩
  · intro r hr
    simp only [coletar_dividendos_periodo_v5] at hr
    by_cases hemp : (loopV5 env (validarPeriodo anoAtual anoInicio anoFim).1
        (validarPeriodo anoAtual anoInicio anoFim).2 delay tickers
        initV5).dados = []
    · rw [if_pos hemp] at hr
      simp at hr
    · rw [if_neg hemp] at hr
      dsimp only at hr
      exact hinv.1 r ((List.perm_insertionSort detLe _).mem_iff.mp hr)
  · intro r hr
    simp only [coletar_dividendos_periodo_v5] at hr
    by_cases hemp : (loopV5 env (validarPeriodo anoAtual anoInicio anoFim).1
        (validarPeriodo anoAtual anoInicio anoFim).2 delay tickers
        initV5).dados = []
    · rw [if_pos hemp] at hr
      simp at hr
    · rw [if_neg hemp] at hr
      dsimp only at hr
      by_cases hann : (loopV5 env (validarPeriodo anoAtual anoInicio anoFim).1
          (validarPeriodo anoAtual anoInicio anoFim).2 delay tickers
          initV5).anuais.map toAnnualRow = []
      · rw [if_pos hann] at hr
        simp at hr
      · rw [if_neg hann] at hr
        have hr2 := (List.perm_insertionSort rankLe _).mem_iff.mp hr
        obtain ⟨q, hq, hqe⟩ := List.mem_map.mp hr2
        have hq2 := (List.perm_insertionSort annLe _).mem_iff.mp hq
        obtain ⟨e, he, hee⟩ := List.mem_map.mp hq2
        have hacao : r.Acao = e.1.1 := by
          rw [← hqe, ← hee]
          rfl
        rw [hacao]
        exact hinv.2.1 e.1 (List.mem_map_of_mem Prod.fst he)
  · intro l hl htl
    simp only [coletar_dividendos_periodo_v5] at hl
    by_cases hemp : (loopV5 env (validarPeriodo anoAtual anoInicio anoFim).1
        (validarPeriodo anoAtual anoInicio anoFim).2 delay tickers
        initV5).dados = []
    · rw [if_pos hemp] at hl
      simp at hl
    · rw [if_neg hemp] at hl
      dsimp only at hl
      by_cases hpos : 0 < (loopV5 env
          (validarPeriodo anoAtual anoInicio anoFim).1
          (validarPeriodo anoAtual anoInicio anoFim).2 delay tickers
          initV5).comDividendos
      · rw [if_pos hpos] at hl
        have hls : l = List.insertionSort (fun a b : String => a ≤ b)
            (loopV5 env (validarPeriodo anoAtual anoInicio anoFim).1
              (validarPeriodo anoAtual anoInicio anoFim).2 delay tickers
              initV5).lista := (Option.some.injEq _ _).mp hl.symm
        rw [hls] at htl
        exact hinv.2.2 t
          ((List.perm_insertionSort (fun a b : String => a ≤ b)
            _).mem_iff.mp htl) rfl
      · rw [if_neg hpos] at hl
        simp at hl
  · simp only [coletar_dividendos_periodo_v5]
    obtain ⟨l₁, l₂, htk⟩ := List.append_of_mem h3
    subst htk
    have e1 : loopV5 env (validarPeriodo anoAtual anoInicio anoFim).1
        (validarPeriodo anoAtual anoInicio anoFim).2 delay
        (l₁ ++ t :: l₂) initV5 =
      loopV5 env (validarPeriodo anoAtual anoInicio anoFim).1
        (validarPeriodo anoAtual anoInicio anoFim).2 delay l₂
        (tentativasV5 (validarPeriodo anoAtual anoInicio anoFim).1
          (validarPeriodo anoAtual anoInicio anoFim).2 t delay (env t)
          (loopV5 env (validarPeriodo anoAtual anoInicio anoFim).1
            (validarPeriodo anoAtual anoInicio anoFim).2 delay l₁
            initV5)) := by
      simp only [loopV5, List.foldl_append, List.foldl_cons]
    have hle : 1 ≤ (loopV5 env (validarPeriodo anoAtual anoInicio anoFim).1
        (validarPeriodo anoAtual anoInicio anoFim).2 delay
        (l₁ ++ t :: l₂) initV5).comErro := by
      rw [e1, tentativasV5_allNone _ _ t delay (env t) _ h1 h2]
      refine le_trans ?_ (loopV5_comErro_mono env _ _ delay l₂ _)
      exact Nat.succ_le_succ (Nat.zero_le _)
    by_cases hemp : (loopV5 env (validarPeriodo anoAtual anoInicio anoFim).1
        (validarPeriodo anoAtual anoInicio anoFim).2 delay
        (l₁ ++ t :: l₂) initV5).dados = []
    · rw [if_pos hemp]
      exact hle
    · rw [if_neg hemp]
      exact hle
  · intro i f st
    exact tentativasV5_allNone i f t delay (env t) st h1 h2
  · intro l₁ l₂ htk
    subst htk
    have e1 : loopV5 env (validarPeriodo anoAtual anoInicio anoFim).1
        (validarPeriodo anoAtual anoInicio anoFim).2 delay
        (l₁ ++ t :: l₂) initV5 =
      loopV5 env (validarPeriodo anoAtual anoInicio anoFim).1
        (validarPeriodo anoAtual anoInicio anoFim).2 delay l₂
        (tentativasV5 (validarPeriodo anoAtual anoInicio anoFim).1
          (validarPeriodo anoAtual anoInicio anoFim).2 t delay (env t)
          (loopV5 env (validarPeriodo anoAtual anoInicio anoFim).1
            (validarPeriodo anoAtual anoInicio anoFim).2 delay l₁
            initV5)) := by
      simp only [loopV5, List.foldl_append, List.foldl_cons]
    have e2 : loopV5 env (validarPeriodo anoAtual anoInicio anoFim).1
        (validarPeriodo anoAtual anoInicio anoFim).2 delay
        (l₁ ++ l₂) initV5 =
      loopV5 env (validarPeriodo anoAtual anoInicio anoFim).1
        (validarPeriodo anoAtual anoInicio anoFim).2 delay l₂
        (loopV5 env (validarPeriodo anoAtual anoInicio anoFim).1
          (validarPeriodo anoAtual anoInicio anoFim).2 delay l₁
          initV5) := by
      simp only [loopV5, List.foldl_append]
    obtain ⟨f1, f2, f3, f4⟩ := tentativasV5_allNone_fields
      (validarPeriodo anoAtual anoInicio anoFim).1
      (validarPeriodo anoAtual anoInicio anoFim).2 t delay (env t)
      (loopV5 env (validarPeriodo anoAtual anoInicio anoFim).1
        (validarPeriodo anoAtual anoInicio anoFim).2 delay l₁ initV5) h2
    obtain ⟨g1, g2, g3, g4⟩ := loopV5_core env
      (validarPeriodo anoAtual anoInicio anoFim).1
      (validarPeriodo anoAtual anoInicio anoFim).2 delay l₂ _ _ f1 f2 f3 f4
    simp only [coletar_dividendos_periodo_v5]
    rw [e1, e2, g1, g2, g3, g4]
    by_cases hemp : (loopV5 env (validarPeriodo anoAtual anoInicio anoFim).1
        (validarPeriodo anoAtual anoInicio anoFim).2 delay l₂
        (loopV5 env (validarPeriodo anoAtual anoInicio anoFim).1
          (validarPeriodo anoAtual anoInicio anoFim).2 delay l₁
          initV5)).dados = []
    · rw [if_pos hemp, if_pos hemp]
      exact ⟨rfl, rfl, rfl⟩
    · rw [if_neg hemp, if_neg hemp]
      exact ⟨rfl, rfl, rfl⟩

/-- Closed instance of C5: with a ticker whose three fetch attempts all
raise, the run records at least one errored symbol. -/
theorem simbolo_com_falha_total_witness :
    1 ≤ (coletar_dividendos_periodo_v5 2024
        (fun u => if u = "BBAS3" then [none, none, none]
          else [some [{ data := ⟨2020, 1, 1⟩, valor := some 1 }]])
        ["BBAS3", "ITUB4"] 2015 2024 (1 / 2)).estado.comErro :=
  (simbolo_com_falha_total 2024
    (fun u => if u = "BBAS3" then [none, none, none]
      else [some [{ data := ⟨2020, 1, 1⟩, valor := some 1 }]])
    ["BBAS3", "ITUB4"] 2015 2024 (1 / 2) "BBAS3"
    (by decide) (by decide) (by decide)).2.2.2.1

theorem tentativasV2_proj (anoInicio anoFim : ℤ) (t : String) (delay : ℚ) :
    ∀ (o : List (Option Series)) (st : RunState5),
      tentativasV2 anoInicio anoFim t delay o (projV2 st) =
        projV2 (tentativasV5 anoInicio anoFim t delay o st) := by
  intro o
  induction o with
  | nil => intro st; rfl
  | cons a rest ih =>
    intro st
    cases a with
    | some s =>
      simp only [tentativasV2, tentativasV5, projV2]
      split <;> rfl
    | none =>
      simp only [tentativasV2, tentativasV5, projV2]
      by_cases hr : rest = []
      · rw [if_pos hr, if_pos hr]
      · rw [if_neg hr, if_neg hr]
        exact ih { st with sleeps := st.sleeps ++ [2 * delay] }

theorem loopV2_proj (env : String → List (Option Series))
    (anoInicio anoFim : ℤ) (delay : ℚ) :
    ∀ (tickers : List String) (st : RunState5),
      loopV2 env anoInicio anoFim delay tickers (projV2 st) =
        projV2 (loopV5 env anoInicio anoFim delay tickers st) := by
  intro tickers
  induction tickers with
  | nil => intro st; rfl
  | cons u ts ih =>
    intro st
    simp only [loopV2, loopV5, List.foldl_cons]
    rw [tentativasV2_proj anoInicio anoFim u delay (env u) st]
    exact ih _

/-- C10: given the same ticker list and the same fetched dividend series
for each ticker, the v2 and the v5 revision of
`coletar_dividendos_periodo` return identical detailed and annual
tables: the v5 changes (ticker source, extra counters and logging, the
sidecar file) do not touch the filtering, normalization, accumulation,
ranking or ordering logic. -/
theorem v2_v5_equivalentes (anoAtual : ℤ)
    (env : String → List (Option Series)) (tickers : List String)
    (anoInicio anoFim : ℤ) (delay : ℚ) :
    (coletar_dividendos_periodo_v2 anoAtual env tickers anoInicio anoFim
        delay).detalhado =
      (coletar_dividendos_periodo_v5 anoAtual env tickers anoInicio anoFim
        delay).detalhado ∧
      (coletar_dividendos_periodo_v2 anoAtual env tickers anoInicio anoFim
          delay).anual =
        (coletar_dividendos_periodo_v5 anoAtual env tickers anoInicio anoFim
          delay).anual := by
  have hb : initV2 = projV2 initV5 := rfl
  simp only [coletar_dividendos_periodo_v2, coletar_dividendos_periodo_v5]
  rw [hb, loopV2_proj env
    (validarPeriodo anoAtual anoInicio anoFim).1
    (validarPeriodo anoAtual anoInicio anoFim).2 delay tickers initV5]
  simp only [projV2]
  by_cases hemp : (loopV5 env (validarPeriodo anoAtual anoInicio anoFim).1
      (validarPeriodo anoAtual anoInicio anoFim).2 delay tickers
      initV5).dados = []
  · rw [if_pos hemp, if_pos hemp]
    exact ⟨rfl, rfl⟩
  · rw [if_neg hemp, if_neg hemp]
    exact ⟨rfl, rfl⟩

theorem updateAnuais_keys_nodup (k : String × ℤ) (v : ℚ) :
    ∀ m : AnuaisMap, (m.map Prod.fst).Nodup →
      ((updateAnuais k v m).map Prod.fst).Nodup := by
  intro m
  induction m with
  | nil => intro _; simp [updateAnuais]
  | cons e rest ih =>
    intro hm
    obtain ⟨ek, ev⟩ := e
    simp only [List.map_cons, List.nodup_cons] at hm
    obtain ⟨hek, hrest⟩ := hm
    simp only [updateAnuais]
    split
    · simp only [List.map_cons, List.nodup_cons]
      exact ⟨hek, hrest⟩
    · rename_i hne
      simp only [List.map_cons, List.nodup_cons]
      refine ⟨?_, ih hrest⟩
      intro hmem
      rcases updateAnuais_keys_mem k v rest ek hmem with h | h
      · exact hek h
      · exact hne h

theorem processEvent_anuais_nodup (anoInicio anoFim : ℤ) (t : String)
    (acc : List DivRecord × AnuaisMap × Bool) (ev : DivEvent)
    (h : (acc.2.1.map Prod.fst).Nodup) :
    ((processEvent anoInicio anoFim t acc ev).2.1.map Prod.fst).Nodup := by
  unfold processEvent
  split
  · cases hev : ev.valor with
    | none => exact h
    | some v =>
      dsimp only
      by_cases hv : v ≤ 0
      · rw [if_pos hv]; exact h
      · rw [if_neg hv]
        dsimp only
        exact updateAnuais_keys_nodup _ _ _ h
  · exact h

theorem foldl_processEvent_anuais_nodup (anoInicio anoFim : ℤ)
    (t : String) :
    ∀ (s : Series) (acc : List DivRecord × AnuaisMap × Bool),
      (acc.2.1.map Prod.fst).Nodup →
      ((s.foldl (processEvent anoInicio anoFim t) acc).2.1.map
        Prod.fst).Nodup := by
  intro s
  induction s with
  | nil => intro acc h; exact h
  | cons ev s ih =>
    intro acc h
    rw [List.foldl_cons]
    exact ih _ (processEvent_anuais_nodup _ _ _ _ _ h)

theorem tentativasV5_anuais_nodup (anoInicio anoFim : ℤ) (t : String)
    (delay : ℚ) :
    ∀ (o : List (Option Series)) (st : RunState5),
      (st.anuais.map Prod.fst).Nodup →
      ((tentativasV5 anoInicio anoFim t delay o st).anuais.map
        Prod.fst).Nodup := by
  intro o
  induction o with
  | nil => intro st h; exact h
  | cons a rest ih =>
    intro st h
    cases a with
    | some s =>
      simp only [tentativasV5]
      split
      · exact foldl_processEvent_anuais_nodup _ _ _ _ _ h
      · exact foldl_processEvent_anuais_nodup _ _ _ _ _ h
    | none =>
      simp only [tentativasV5]
      split
      · exact h
      · exact ih { st with sleeps := st.sleeps ++ [2 * delay] } h

theorem loopV5_anuais_nodup (env : String → List (Option Series))
    (anoInicio anoFim : ℤ) (delay : ℚ) :
    ∀ (tickers : List String) (st : RunState5),
      (st.anuais.map Prod.fst).Nodup →
      ((loopV5 env anoInicio anoFim delay tickers st).anuais.map
        Prod.fst).Nodup := by
  intro tickers
  induction tickers with
  | nil => intro st h; exact h
  | cons u ts ih =>
    intro st h
    simp only [loopV5, List.foldl_cons]
    exact ih _ (tentativasV5_anuais_nodup anoInicio anoFim u delay
      (env u) st h)

/-- C9: in the annual dividend table, every (Ano, Acao) pair occurs in
at most one row: the per-(symbol, year) totals are accumulated under
unique dict keys, and ranking and sorting preserve that uniqueness. -/
theorem anual_chave_unica (anoAtual : ℤ)
    (env : String → List (Option Series)) (tickers : List String)
    (anoInicio anoFim : ℤ) (delay : ℚ) :
    ((coletar_dividendos_periodo_v5 anoAtual env tickers anoInicio anoFim
        delay).anual).Pairwise
      (fun r₁ r₂ => ¬ (r₁.Ano = r₂.Ano ∧ r₁.Acao = r₂.Acao)) := by
  have hnd := loopV5_anuais_nodup env
    (validarPeriodo anoAtual anoInicio anoFim).1
    (validarPeriodo anoAtual anoInicio anoFim).2 delay tickers initV5
    (by simp [initV5])
  simp only [coletar_dividendos_periodo_v5]
  by_cases hemp : (loopV5 env (validarPeriodo anoAtual anoInicio anoFim).1
      (validarPeriodo anoAtual anoInicio anoFim).2 delay tickers
      initV5).dados = []
  · rw [if_pos hemp]
    exact List.Pairwise.nil
  · rw [if_neg hemp]
    dsimp only
    by_cases hann : (loopV5 env (validarPeriodo anoAtual anoInicio anoFim).1
        (validarPeriodo anoAtual anoInicio anoFim).2 delay tickers
        initV5).anuais.map toAnnualRow = []
    · rw [if_pos hann]
      exact List.Pairwise.nil
    · rw [if_neg hann]
      have h0 : ((loopV5 env (validarPeriodo anoAtual anoInicio anoFim).1
          (validarPeriodo anoAtual anoInicio anoFim).2 delay tickers
          initV5).anuais.map Prod.fst).Pairwise (fun a b => a ≠ b) := hnd
      rw [List.pairwise_map] at h0
      have h1 : ((loopV5 env (validarPeriodo anoAtual anoInicio anoFim).1
          (validarPeriodo anoAtual anoInicio anoFim).2 delay tickers
          initV5).anuais.map toAnnualRow).Pairwise
          (fun r₁ r₂ => ¬ (r₁.Ano = r₂.Ano ∧ r₁.Acao = r₂.Acao)) := by
        rw [List.pairwise_map]
        refine h0.imp ?_
        intro e₁ e₂ hne hc
        exact hne (Prod.ext_iff.mpr ⟨hc.2, hc.1⟩)
      have hsym1 : ∀ {a b : AnnualRow},
          ¬ (a.Ano = b.Ano ∧ a.Acao = b.Acao) →
          ¬ (b.Ano = a.Ano ∧ b.Acao = a.Acao) := by
        intro a b h hc
        exact h ⟨hc.1.symm, hc.2.symm⟩
      have h2 := (List.Perm.pairwise_iff hsym1
        (List.perm_insertionSort annLe _)).mpr h1
      have h3 : (addRanking (List.insertionSort annLe
          ((loopV5 env (validarPeriodo anoAtual anoInicio anoFim).1
            (validarPeriodo anoAtual anoInicio anoFim).2 delay tickers
            initV5).anuais.map toAnnualRow))).Pairwise
          (fun r₁ r₂ : RankedRow =>
            ¬ (r₁.Ano = r₂.Ano ∧ r₁.Acao = r₂.Acao)) := by
        unfold addRanking
        rw [List.pairwise_map]
        exact h2.imp (fun h hc => h hc)
      have hsym2 : ∀ {a b : RankedRow},
          ¬ (a.Ano = b.Ano ∧ a.Acao = b.Acao) →
          ¬ (b.Ano = a.Ano ∧ b.Acao = a.Acao) := by
        intro a b h hc
        exact h ⟨hc.1.symm, hc.2.symm⟩
      exact (List.Perm.pairwise_iff hsym2
        (List.perm_insertionSort rankLe _)).mpr h3

/-- C7 fails as stated: with one symbol paying on 2019-05-03 and
2020-01-02, the detailed table lists the 2020 record before the 2019
one, because `sort_values` compares the formatted dd-mm-yyyy strings
("02-01-2020" < "03-05-2019" lexicographically), not the dates. -/
theorem detalhado_nao_cronologico :
    ¬ ChronologicalPorAcao
      ((coletar_dividendos_periodo_v5 2024
          (fun _ => [some [{ data := ⟨2019, 5, 3⟩, valor := some 1 },
                           { data := ⟨2020, 1, 2⟩, valor := some 2 }]])
          ["AAAA3"] 2015 2024 (1 / 2)).detalhado) := by
  decide

/-- C7 amended: the detailed dividend table is sorted by symbol and,
within each symbol, by the formatted dd-mm-yyyy date string in
lexicographic order (day field most significant), which coincides with
chronological order only within a fixed day and month. -/
theorem detalhado_ordenado (anoAtual : ℤ)
    (env : String → List (Option Series)) (tickers : List String)
    (anoInicio anoFim : ℤ) (delay : ℚ) :
    List.Sorted detLe ((coletar_dividendos_periodo_v5 anoAtual env tickers
      anoInicio anoFim delay).detalhado) := by
  simp only [coletar_dividendos_periodo_v5]
  by_cases hemp : (loopV5 env (validarPeriodo anoAtual anoInicio anoFim).1
      (validarPeriodo anoAtual anoInicio anoFim).2 delay tickers
      initV5).dados = []
  · rw [if_pos hemp]
    exact List.sorted_nil
  · rw [if_neg hemp]
    exact List.sorted_insertionSort detLe _

/-- C8: every daily quote row produced by `coletar_cotacoes_diarias`
comes from a fetched history row, with `Abertura` and `Fechamento` the
4-decimal round-half-up normalizations of the raw open and close, and
`Media` the normalization of the raw `(Open + Close) / 2`. -/
theorem cotacoes_media_normalizada (ticker : String)
    (o : List (Option (List HistRow))) (r : QuoteRow)
    (hr : r ∈ coletar_cotacoes_diarias ticker o) :
    ∃ h : HistRow,
      r.Abertura = formatar_valor h.Open ∧
      r.Fechamento = formatar_valor h.Close ∧
      r.Media = formatar_valor (mediaOpt h.Open h.Close) ∧
      r.Data = formatDate h.date ∧ r.Ano = h.date.year := by
  induction o with
  | nil => cases hr
  | cons a rest ih =>
    cases a with
    | some hist =>
      simp only [coletar_cotacoes_diarias] at hr
      split at hr
      · cases hr
      · unfold cotacoesFromHist at hr
        obtain ⟨h, _, hhe⟩ := List.mem_map.mp hr
        refine ⟨h, ?_, ?_, ?_, ?_, ?_⟩ <;> rw [← hhe]
    | none =>
      simp only [coletar_cotacoes_diarias] at hr
      split at hr
      · cases hr
      · exact ih hr

/-- Closed instance of C8: a single history row (open 10, close 11) on
2020-01-02 yields a quote row whose fields are the stated
normalizations. -/
theorem cotacoes_media_normalizada_witness :
    ∃ h : HistRow,
      ({ Data := formatDate ⟨2020, 1, 2⟩, Acao := "PETR4",
         Abertura := formatar_valor (some 10),
         Fechamento := formatar_valor (some 11),
         Media := formatar_valor (mediaOpt (some 10) (some 11)),
         Ano := 2020 } : QuoteRow).Abertura = formatar_valor h.Open ∧
      ({ Data := formatDate ⟨2020, 1, 2⟩, Acao := "PETR4",
         Abertura := formatar_valor (some 10),
         Fechamento := formatar_valor (some 11),
         Media := formatar_valor (mediaOpt (some 10) (some 11)),
         Ano := 2020 } : QuoteRow).Fechamento = formatar_valor h.Close ∧
      ({ Data := formatDate ⟨2020, 1, 2⟩, Acao := "PETR4",
         Abertura := formatar_valor (some 10),
         Fechamento := formatar_valor (some 11),
         Media := formatar_valor (mediaOpt (some 10) (some 11)),
         Ano := 2020 } : QuoteRow).Media =
        formatar_valor (mediaOpt h.Open h.Close) ∧
      ({ Data := formatDate ⟨2020, 1, 2⟩, Acao := "PETR4",
         Abertura := formatar_valor (some 10),
         Fechamento := formatar_valor (some 11),
         Media := formatar_valor (mediaOpt (some 10) (some 11)),
         Ano := 2020 } : QuoteRow).Data = formatDate h.date ∧
      ({ Data := formatDate ⟨2020, 1, 2⟩, Acao := "PETR4",
         Abertura := formatar_valor (some 10),
         Fechamento := formatar_valor (some 11),
         Media := formatar_valor (mediaOpt (some 10) (some 11)),
         Ano := 2020 } : QuoteRow).Ano = h.date.year :=
  cotacoes_media_normalizada "PETR4"
    [some [{ date := ⟨2020, 1, 2⟩, Open := some 10, Close := some 11 }]]
    _ (by simp [coletar_cotacoes_diarias, cotacoesFromHist])

theorem toFinset_map_image {α β : Type} [DecidableEq α] [DecidableEq β]
    (f : α → β) (l : List α) :
    (l.map f).toFinset = l.toFinset.image f := by
  ext b
  simp

theorem denseRank_filter_mono (S : Finset ℚ) {a b : ℚ} (hb : b ∈ S)
    (hab : a < b) :
    (S.filter (fun w => b < w)).card < (S.filter (fun w => a < w)).card := by
  apply Finset.card_lt_card
  rw [Finset.ssubset_iff_of_subset]
  · exact ⟨b, Finset.mem_filter.mpr ⟨hb, hab⟩,
      fun hmem => absurd (Finset.mem_filter.mp hmem).2 (lt_irrefl b)⟩
  · intro x hx
    rcases Finset.mem_filter.mp hx with ⟨hxS, hbx⟩
    exact Finset.mem_filter.mpr ⟨hxS, lt_trans hab hbx⟩

theorem denseRank_image (S : Finset ℚ) (hS : S.Nonempty) :
    S.image (fun v => (S.filter (fun w => v < w)).card + 1) =
      Finset.Icc 1 S.card := by
  have hpos : 0 < S.card := Finset.card_pos.mpr hS
  have hbound : ∀ v ∈ S, (S.filter (fun w => v < w)).card + 1 ≤ S.card := by
    intro v hv
    have hsub : S.filter (fun w => v < w) ⊆ S.erase v := by
      intro x hx
      rcases Finset.mem_filter.mp hx with ⟨hxS, hvx⟩
      exact Finset.mem_erase.mpr ⟨ne_of_gt hvx, hxS⟩
    have hcard := Finset.card_le_card hsub
    rw [Finset.card_erase_of_mem hv] at hcard
    omega
  have hinj : Set.InjOn (fun v => (S.filter (fun w => v < w)).card + 1)
      (S : Set ℚ) := by
    intro a ha b hb hab
    dsimp only at hab
    by_contra hne
    rcases lt_or_gt_of_ne hne with h | h
    · have hlt := denseRank_filter_mono S (Finset.mem_coe.mp hb) h
      omega
    · have hlt := denseRank_filter_mono S (Finset.mem_coe.mp ha) h
      omega
  have hsub : S.image (fun v => (S.filter (fun w => v < w)).card + 1) ⊆
      Finset.Icc 1 S.card := by
    intro n hn
    obtain ⟨v, hv, rfl⟩ := Finset.mem_image.mp hn
    exact Finset.mem_Icc.mpr ⟨Nat.succ_le_succ (Nat.zero_le _), hbound v hv⟩
  refine Finset.eq_of_subset_of_card_le hsub ?_
  rw [Nat.card_Icc, Finset.card_image_of_injOn hinj]
  omega

theorem dense_ranking_props (rows : List AnnualRow) (L : List RankedRow)
    (hL : L.Perm (addRanking rows)) (y : ℤ)
    (hy : L.filter (fun r => r.Ano = y) ≠ []) :
    ((L.filter (fun r => r.Ano = y)).map (fun r => r.Ranking)).toFinset =
        Finset.Icc 1
          ((L.filter (fun r => r.Ano = y)).map
            (fun r => r.Valor)).toFinset.card ∧
      (∀ r₁ ∈ L.filter (fun r => r.Ano = y),
        ∀ r₂ ∈ L.filter (fun r => r.Ano = y),
        r₁.Valor = r₂.Valor → r₁.Ranking = r₂.Ranking) ∧
      (∀ r ∈ L.filter (fun r => r.Ano = y),
        (r.Ranking = 1 ↔
          ∀ q ∈ L.filter (fun r => r.Ano = y), q.Valor ≤ r.Valor)) := by
  have hstep : (addRanking rows).filter (fun r => r.Ano = y) =
      (rows.filter (fun q => q.Ano = y)).map
        (fun r =>
          ({ Ano := r.Ano, Acao := r.Acao, Valor := r.Valor,
             Ranking :=
               denseRankDesc ((rows.filter
                 (fun q => q.Ano = r.Ano)).map (fun q => q.Valor))
                 r.Valor } : RankedRow)) := by
    unfold addRanking
    rw [List.filter_map]
    rfl
  have hperm2 : (L.filter (fun r => r.Ano = y)).Perm
      ((rows.filter (fun q => q.Ano = y)).map
        (fun r =>
          ({ Ano := r.Ano, Acao := r.Acao, Valor := r.Valor,
             Ranking :=
               denseRankDesc ((rows.filter
                 (fun q => q.Ano = r.Ano)).map (fun q => q.Valor))
                 r.Valor } : RankedRow))) := by
    have h := List.Perm.filter (fun r : RankedRow => r.Ano = y) hL
    rw [hstep] at h
    exact h
  have hvfin : ((rows.filter (fun q => q.Ano = y)).map
        (fun q => q.Valor)).toFinset =
      ((L.filter (fun r => r.Ano = y)).map (fun r => r.Valor)).toFinset := by
    refine (List.toFinset_eq_of_perm _ _ ?_).symm
    have h := hperm2.map (fun r => r.Valor)
    rw [List.map_map] at h
    exact h
  have hkey : ∀ r ∈ L.filter (fun r => r.Ano = y),
      r.Ranking = (((L.filter (fun r => r.Ano = y)).map
        (fun r => r.Valor)).toFinset.filter
          (fun w => r.Valor < w)).card + 1 := by
    intro r hr
    have hr2 := hperm2.mem_iff.mp hr
    obtain ⟨q, hqC, hgq⟩ := List.mem_map.mp hr2
    obtain ⟨hqrows, hqy'⟩ := List.mem_filter.mp hqC
    have hqy : q.Ano = y := of_decide_eq_true hqy'
    have hval : r.Valor = q.Valor := by rw [← hgq]
    have hrank : r.Ranking = denseRankDesc ((rows.filter
        (fun q' => q'.Ano = q.Ano)).map (fun q' => q'.Valor)) q.Valor := by
      rw [← hgq]
    rw [hrank, hqy, hval]
    unfold denseRankDesc
    rw [hvfin]
  refine ⟨?_, ?_, ?_⟩
  · have hSne : ((L.filter (fun r => r.Ano = y)).map
        (fun r => r.Valor)).toFinset.Nonempty := by
      obtain ⟨a, ha⟩ := List.exists_mem_of_ne_nil _ hy
      exact ⟨a.Valor, List.mem_toFinset.mpr (List.mem_map_of_mem _ ha)⟩
    have hmap : ((L.filter (fun r => r.Ano = y)).map (fun r => r.Ranking)) =
        ((L.filter (fun r => r.Ano = y)).map (fun r => r.Valor)).map
          (fun v => ((((L.filter (fun r => r.Ano = y)).map
            (fun r => r.Valor)).toFinset.filter
              (fun w => v < w)).card + 1)) := by
      rw [List.map_map]
      exact List.map_congr_left hkey
    rw [hmap, toFinset_map_image]
    exact denseRank_image _ hSne
  · intro r₁ h₁ r₂ h₂ hval
    rw [hkey r₁ h₁, hkey r₂ h₂, hval]
  · intro r hr
    rw [hkey r hr]
    constructor
    · intro h1 q hq
      have hcard : (((L.filter (fun r => r.Ano = y)).map
          (fun r => r.Valor)).toFinset.filter
            (fun w => r.Valor < w)).card = 0 := by omega
      have hempty := Finset.card_eq_zero.mp hcard
      by_contra hlt
      have hql : q.Valor ∈ ((L.filter (fun r => r.Ano = y)).map
          (fun r => r.Valor)).toFinset :=
        List.mem_toFinset.mpr (List.mem_map_of_mem _ hq)
      have hmem : q.Valor ∈ (((L.filter (fun r => r.Ano = y)).map
          (fun r => r.Valor)).toFinset.filter (fun w => r.Valor < w)) :=
        Finset.mem_filter.mpr ⟨hql, lt_of_not_le hlt⟩
      rw [hempty] at hmem
      exact absurd hmem (Finset.not_mem_empty _)
    · intro hall
      have hempty : (((L.filter (fun r => r.Ano = y)).map
          (fun r => r.Valor)).toFinset.filter
            (fun w => r.Valor < w)) = ∅ := by
        rw [Finset.filter_eq_empty_iff]
        intro x hx hlt
        obtain ⟨q, hq, rfl⟩ := List.mem_map.mp (List.mem_toFinset.mp hx)
        exact absurd (hall q hq) (not_le.mpr hlt)
      rw [hempty]
      simp

/-- C1: for every year present in the annual dividend table, the set of
`Ranking` values of that year's rows is exactly `{1..k}` with no gaps,
where `k` is the number of distinct totals that year; rows with equal
totals get equal rank, and rank 1 is held exactly by the rows whose
total is the year's maximum (dense descending ranking). -/
theorem ranking_denso_correto (anoAtual : ℤ)
    (env : String → List (Option Series)) (tickers : List String)
    (anoInicio anoFim : ℤ) (delay : ℚ) (y : ℤ)
    (hy : ((coletar_dividendos_periodo_v5 anoAtual env tickers anoInicio
        anoFim delay).anual.filter (fun r => r.Ano = y)) ≠ []) :
    (((coletar_dividendos_periodo_v5 anoAtual env tickers anoInicio anoFim
          delay).anual.filter (fun r => r.Ano = y)).map
        (fun r => r.Ranking)).toFinset =
      Finset.Icc 1
        (((coletar_dividendos_periodo_v5 anoAtual env tickers anoInicio
            anoFim delay).anual.filter (fun r => r.Ano = y)).map
          (fun r => r.Valor)).dedup.length ∧
    (∀ r₁ ∈ (coletar_dividendos_periodo_v5 anoAtual env tickers anoInicio
        anoFim delay).anual.filter (fun r => r.Ano = y),
      ∀ r₂ ∈ (coletar_dividendos_periodo_v5 anoAtual env tickers anoInicio
        anoFim delay).anual.filter (fun r => r.Ano = y),
      r₁.Valor = r₂.Valor → r₁.Ranking = r₂.Ranking) ∧
    (∀ r ∈ (coletar_dividendos_periodo_v5 anoAtual env tickers anoInicio
        anoFim delay).anual.filter (fun r => r.Ano = y),
      (r.Ranking = 1 ↔
        ∀ q ∈ (coletar_dividendos_periodo_v5 anoAtual env tickers anoInicio
          anoFim delay).anual.filter (fun r => r.Ano = y),
        q.Valor ≤ r.Valor)) := by
  simp only [coletar_dividendos_periodo_v5] at hy ⊢
  by_cases hemp : (loopV5 env (validarPeriodo anoAtual anoInicio anoFim).1
      (validarPeriodo anoAtual anoInicio anoFim).2 delay tickers
      initV5).dados = []
  · rw [if_pos hemp] at hy ⊢
    simp at hy
  · rw [if_neg hemp] at hy ⊢
    dsimp only at hy ⊢
    by_cases hann : (loopV5 env (validarPeriodo anoAtual anoInicio anoFim).1
        (validarPeriodo anoAtual anoInicio anoFim).2 delay tickers
        initV5).anuais.map toAnnualRow = []
    · rw [if_pos hann] at hy ⊢
      simp at hy
    · rw [if_neg hann] at hy ⊢
      have hprops := dense_ranking_props
        (List.insertionSort annLe
          ((loopV5 env (validarPeriodo anoAtual anoInicio anoFim).1
            (validarPeriodo anoAtual anoInicio anoFim).2 delay tickers
            initV5).anuais.map toAnnualRow))
        (List.insertionSort rankLe
          (addRanking (List.insertionSort annLe
            ((loopV5 env (validarPeriodo anoAtual anoInicio anoFim).1
              (validarPeriodo anoAtual anoInicio anoFim).2 delay tickers
              initV5).anuais.map toAnnualRow))))
        (List.perm_insertionSort rankLe _) y hy
      refine ⟨?_, hprops.2.1, hprops.2.2⟩
      rw [← List.card_toFinset]
      exact hprops.1

/-- Closed instance of C1: one symbol with one 2020 dividend yields a
year-2020 group whose rank set is exactly {1}. -/
theorem ranking_denso_correto_witness :
    (((coletar_dividendos_periodo_v5 2024
          (fun _ => [some [{ data := ⟨2020, 1, 1⟩, valor := some 10 }]])
          ["ITSA4"] 2015 2024 (1 / 2)).anual.filter
        (fun r => r.Ano = 2020)).map (fun r => r.Ranking)).toFinset =
      Finset.Icc 1
        (((coletar_dividendos_periodo_v5 2024
            (fun _ => [some [{ data := ⟨2020, 1, 1⟩, valor := some 10 }]])
            ["ITSA4"] 2015 2024 (1 / 2)).anual.filter
          (fun r => r.Ano = 2020)).map (fun r => r.Valor)).dedup.length :=
  (ranking_denso_correto 2024
    (fun _ => [some [{ data := ⟨2020, 1, 1⟩, valor := some 10 }]])
    ["ITSA4"] 2015 2024 (1 / 2) 2020 (by decide)).1
